import Mathlib

/-!
Shallow embedding of the clear-sky detection core of the `clearskies`
repository (`src/clearskies.cpp`): the five per-window criteria
(`L`, `sigma`, `S`, `calculate_criterion`), the threshold check
(`evaluate_criterion`) and the sliding-window scan (`clear_points`).

Modelling conventions:
* C++ `double` values are modelled as real numbers (`ℝ`).  Lean's total
  real division (`t / 0 = 0`) coincides with the source's NaN/Inf guard
  in `sigma`: every input on which the C code produces NaN or Inf and
  then returns `0.0` is an input on which the Lean expression evaluates
  to `0` by the division-by-zero convention, so `sigma` needs no
  explicit guard in the embedding (this coincidence is proved where the
  relevant claims are settled).
* Rcpp's `max` / `min` sugar reads the first element of its argument
  unconditionally, so on an *empty* vector its result is an unspecified
  value (an out-of-bounds read).  The embedding makes that explicit: a
  parameter `junk : ℝ` stands for the unspecified result of taking the
  extremum of an empty vector, and it is threaded through every
  definition that can reach such an extremum.  Theorems quantify over
  `junk`, so anything proved for all `junk` holds regardless of what
  the out-of-bounds read happens to produce.
* `Rcpp::NumericVector` becomes `List ℝ`, `Rcpp::List` of threshold
  vectors becomes `List (List ℝ)`, `Rcpp::LogicalVector` becomes
  `List Bool`, and the C `int` argument `window_len` becomes `ℤ`.
* The three `throw std::range_error` validations in `clear_points`
  become an `Except ClearError` result.
-/

namespace Clearskies

/-- Consecutive differences of a vector: `diff x` has one entry
`x[i+1] - x[i]` for each of the `x.length - 1` consecutive pairs
(Rcpp sugar `diff`). -/
def diff (x : List ℝ) : List ℝ :=
  List.zipWith (fun a b => b - a) x x.tail

/-- Arithmetic mean, `sum / length` (Rcpp sugar `mean`). -/
noncomputable def mean (x : List ℝ) : ℝ :=
  x.sum / x.length

/-- Minimum of a vector (Rcpp sugar `min`): the fold of `min` over the
elements starting from the first one.  On an empty vector the source
reads out of bounds; `junk` stands for that unspecified value. -/
def vminD (junk : ℝ) (x : List ℝ) : ℝ :=
  x.min?.getD junk

/-- Maximum of a vector (Rcpp sugar `max`): the fold of `max` over the
elements starting from the first one.  On an empty vector the source
reads out of bounds; `junk` stands for that unspecified value. -/
def vmaxD (junk : ℝ) (x : List ℝ) : ℝ :=
  x.max?.getD junk

/-- Line length of a series: `sum(sqrt(pow(diff(x), 2) + 1))`
(function `L` in `clearskies.cpp`). -/
noncomputable def L (x : List ℝ) : ℝ :=
  ((diff x).map fun d => Real.sqrt (d ^ 2 + 1)).sum

/-- Sample variance with the `n - 1` denominator, as computed by Rcpp's
`var` sugar: `Σ (s i - mean s)² / (length s - 1)` (the subtraction in
the denominator is over `ℝ`). -/
noncomputable def svar (s : List ℝ) : ℝ :=
  (s.map fun v => (v - mean s) ^ 2).sum / ((s.length : ℝ) - 1)

/-- Sample standard deviation, `sqrt(var(s))` (Rcpp sugar `sd`). -/
noncomputable def sd (s : List ℝ) : ℝ :=
  Real.sqrt (svar s)

/-- Normalized standard deviation of the slope (function `sigma` in
`clearskies.cpp`): `sd(diff(x)) / mean(x)`.  The source guards the
quotient with `isnan || isinf`, returning `0.0`; over `ℝ` the guard is
subsumed by the total-division convention `t / 0 = 0` (every NaN/Inf
case of the C code is a division by zero here and yields `0`). -/
noncomputable def sigma (x : List ℝ) : ℝ :=
  sd (diff x) / mean x

/-- Maximum deviation from the clear sky slope (function `S` in
`clearskies.cpp`): `max(abs(diff(x) - diff(cs)))`. -/
def S (junk : ℝ) (x cs : List ℝ) : ℝ :=
  vmaxD junk (List.zipWith (fun a b => |a - b|) (diff x) (diff cs))

/-- The five clear-sky criteria of a window pair, in the source's fixed
key order `0,...,4` of the `std::map<int, double>` built by
`calculate_criterion`: mean difference, max difference, line-length
difference, sigma difference, maximum slope deviation. -/
noncomputable def calculate_criterion (junk : ℝ) (x cs : List ℝ) : List ℝ :=
  [mean x - mean cs,
   vmaxD junk x - vmaxD junk cs,
   L x - L cs,
   sigma x - sigma cs,
   S junk x cs]

/-- Threshold check (function `evaluate_criterion` in `clearskies.cpp`):
walk the criteria and the threshold vectors in lockstep and fail as soon
as one criterion lies strictly below the minimum or strictly above the
maximum of its bounds vector; all comparisons are inclusive. -/
def evaluate_criterion (junk : ℝ) (criterion : List ℝ)
    (thresholds : List (List ℝ)) : Prop :=
  ∀ cb ∈ List.zip criterion thresholds,
    ¬(cb.1 < vminD junk cb.2 ∨ cb.1 > vmaxD junk cb.2)

/-- The window of length `wl` starting at offset `p`
(`obs.assign(i, i + window_len)` in the scan loop). -/
def window (x : List ℝ) (p wl : ℕ) : List ℝ :=
  (x.drop p).take wl

/-- Whether the window pair starting at `p` is judged clear
(the `allclear` value of one scan iteration). -/
noncomputable def clearAt (junk : ℝ) (x cs : List ℝ)
    (thresholds : List (List ℝ)) (wl p : ℕ) : Prop :=
  evaluate_criterion junk
    (calculate_criterion junk (window x p wl) (window cs p wl)) thresholds

/-- Set positions `[p, p + wl)` of the mask to `true`, leaving every
other position unchanged (`std::replace(k, k + window_len, false, true)`:
only `false` entries can change, and they change to `true`). -/
def markClear (p wl : ℕ) (mask : List Bool) : List Bool :=
  (List.range mask.length).map fun s =>
    if p ≤ s ∧ s < p + wl then true else mask.getD s false

open Classical in
/-- The scan loop of `clear_points`: fold over the list of window start
positions, marking `[p, p + wl)` whenever the window at `p` is clear. -/
noncomputable def scanWindows (junk : ℝ) (x cs : List ℝ)
    (thresholds : List (List ℝ)) (wl : ℕ) :
    List ℕ → List Bool → List Bool
  | [], mask => mask
  | p :: ps, mask =>
    scanWindows junk x cs thresholds wl ps
      (if clearAt junk x cs thresholds wl p then markClear p wl mask else mask)

/-- The three `std::range_error` validations of `clear_points`. -/
inductive ClearError
  | LengthMismatch
  | InvalidWindowLength
  | InvalidThresholdCount
deriving DecidableEq

/-- Clear sky detection (function `clear_points` in `clearskies.cpp`):
validate the three preconditions in source order, then scan every
window start position `p = 0, ..., n - window_len` over a mask that
starts all-`false`. -/
noncomputable def clear_points (junk : ℝ) (x cs : List ℝ)
    (thresholds : List (List ℝ)) (window_len : ℤ) :
    Except ClearError (List Bool) :=
  if x.length ≠ cs.length then .error .LengthMismatch
  else if window_len ≤ 0 ∨ window_len > (x.length : ℤ) then
    .error .InvalidWindowLength
  else if thresholds.length ≠ 5 then .error .InvalidThresholdCount
  else .ok (scanWindows junk x cs thresholds window_len.toNat
    (List.range (x.length - window_len.toNat + 1))
    (List.replicate x.length false))

/-! ### Elementary facts about vector extrema -/

lemma max?_char {l : List ℝ} {a : ℝ} :
    l.max? = some a ↔ a ∈ l ∧ ∀ b ∈ l, b ≤ a := by
  have anti : Std.Antisymm (fun x1 x2 : ℝ => x1 ≤ x2) :=
    ⟨fun h h' => le_antisymm h h'⟩
  apply List.max?_eq_some_iff <;> simp [le_total]

lemma min?_char {l : List ℝ} {a : ℝ} :
    l.min? = some a ↔ a ∈ l ∧ ∀ b ∈ l, a ≤ b := by
  have anti : Std.Antisymm (fun x1 x2 : ℝ => x1 ≤ x2) :=
    ⟨fun h h' => le_antisymm h h'⟩
  apply List.min?_eq_some_iff <;> simp [le_total]

lemma vmaxD_spec (junk : ℝ) {l : List ℝ} (h : l ≠ []) :
    vmaxD junk l ∈ l ∧ ∀ b ∈ l, b ≤ vmaxD junk l := by
  cases hm : l.max? with
  | none => exact absurd (List.max?_eq_none_iff.mp hm) h
  | some m => simpa [vmaxD, hm] using max?_char.mp hm

lemma vminD_spec (junk : ℝ) {l : List ℝ} (h : l ≠ []) :
    vminD junk l ∈ l ∧ ∀ b ∈ l, vminD junk l ≤ b := by
  cases hm : l.min? with
  | none => exact absurd (List.min?_eq_none_iff.mp hm) h
  | some m => simpa [vminD, hm] using min?_char.mp hm

lemma vmaxD_eq (junk : ℝ) {l : List ℝ} {a : ℝ} (h1 : a ∈ l)
    (h2 : ∀ b ∈ l, b ≤ a) : vmaxD junk l = a := by
  have hne : l ≠ [] := by rintro rfl; exact absurd h1 (List.not_mem_nil a)
  obtain ⟨hm, hub⟩ := vmaxD_spec junk hne
  exact le_antisymm (h2 _ hm) (hub _ h1)

lemma vminD_eq (junk : ℝ) {l : List ℝ} {a : ℝ} (h1 : a ∈ l)
    (h2 : ∀ b ∈ l, a ≤ b) : vminD junk l = a := by
  have hne : l ≠ [] := by rintro rfl; exact absurd h1 (List.not_mem_nil a)
  obtain ⟨hm, hlb⟩ := vminD_spec junk hne
  exact le_antisymm (hlb _ h1) (h2 _ hm)

lemma vmaxD_nil (junk : ℝ) : vmaxD junk [] = junk := rfl

lemma vminD_nil (junk : ℝ) : vminD junk [] = junk := rfl

lemma vmaxD_perm (junk : ℝ) {l l' : List ℝ} (h : l.Perm l') :
    vmaxD junk l = vmaxD junk l' := by
  cases l with
  | nil => rw [h.symm.eq_nil]
  | cons a t =>
    have hne : (a :: t) ≠ [] := by simp
    have hne' : l' ≠ [] := by
      rintro rfl; simpa using h.eq_nil
    obtain ⟨hm, hub⟩ := vmaxD_spec junk hne
    obtain ⟨hm', hub'⟩ := vmaxD_spec junk hne'
    exact le_antisymm (hub' _ (h.mem_iff.mp hm)) (hub _ (h.mem_iff.mpr hm'))

lemma vminD_perm (junk : ℝ) {l l' : List ℝ} (h : l.Perm l') :
    vminD junk l = vminD junk l' := by
  cases l with
  | nil => rw [h.symm.eq_nil]
  | cons a t =>
    have hne : (a :: t) ≠ [] := by simp
    have hne' : l' ≠ [] := by
      rintro rfl; simpa using h.eq_nil
    obtain ⟨hm, hlb⟩ := vminD_spec junk hne
    obtain ⟨hm', hlb'⟩ := vminD_spec junk hne'
    exact le_antisymm (hlb _ (h.mem_iff.mpr hm')) (hlb' _ (h.mem_iff.mp hm))

/-! ### The mask update and the scan loop -/

lemma length_markClear (p wl : ℕ) (mask : List Bool) :
    (markClear p wl mask).length = mask.length := by
  simp [markClear]

lemma getD_markClear (p wl : ℕ) (mask : List Bool) {s : ℕ}
    (hs : s < mask.length) :
    (markClear p wl mask).getD s false =
      if p ≤ s ∧ s < p + wl then true else mask.getD s false := by
  have hlen : s < (markClear p wl mask).length := by
    rw [length_markClear]; exact hs
  rw [List.getD_eq_getElem _ _ hlen]
  simp [markClear]

lemma scanWindows_length (junk : ℝ) (x cs : List ℝ) (th : List (List ℝ))
    (wl : ℕ) (ps : List ℕ) : ∀ mask : List Bool,
    (scanWindows junk x cs th wl ps mask).length = mask.length := by
  induction ps with
  | nil => intro mask; rfl
  | cons p ps ih =>
    intro mask
    rw [scanWindows, ih]
    split
    · exact length_markClear p wl mask
    · rfl

lemma scanWindows_getD (junk : ℝ) (x cs : List ℝ) (th : List (List ℝ))
    (wl : ℕ) (ps : List ℕ) : ∀ (mask : List Bool) (s : ℕ), s < mask.length →
    ((scanWindows junk x cs th wl ps mask).getD s false = true ↔
      mask.getD s false = true ∨
        ∃ p ∈ ps, clearAt junk x cs th wl p ∧ p ≤ s ∧ s < p + wl) := by
  induction ps with
  | nil => intro mask s hs; simp [scanWindows]
  | cons p ps ih =>
    intro mask s hs
    rw [scanWindows]
    by_cases hc : clearAt junk x cs th wl p
    · rw [if_pos hc,
        ih (markClear p wl mask) s (by rw [length_markClear]; exact hs),
        getD_markClear p wl mask hs]
      simp only [List.exists_mem_cons_iff]
      by_cases hcov : p ≤ s ∧ s < p + wl
      · rw [if_pos hcov]
        constructor
        · intro _
          exact Or.inr (Or.inl ⟨hc, hcov.1, hcov.2⟩)
        · intro _
          exact Or.inl rfl
      · rw [if_neg hcov]
        constructor
        · rintro (hmask | hrest)
          · exact Or.inl hmask
          · exact Or.inr (Or.inr hrest)
        · rintro (hmask | ⟨_, hp1, hp2⟩ | hrest)
          · exact Or.inl hmask
          · exact absurd ⟨hp1, hp2⟩ hcov
          · exact Or.inr hrest
    · rw [if_neg hc, ih mask s hs]
      simp only [List.exists_mem_cons_iff]
      constructor
      · rintro (hmask | hrest)
        · exact Or.inl hmask
        · exact Or.inr (Or.inr hrest)
      · rintro (hmask | ⟨hcl, _⟩ | hrest)
        · exact Or.inl hmask
        · exact absurd hcl hc
        · exact Or.inr hrest

lemma getD_replicate_false (n s : ℕ) :
    (List.replicate n false).getD s false = false := by
  by_cases hs : s < n
  · rw [List.getD_eq_getElem _ _ (by simpa using hs)]
    exact List.getElem_replicate false (by simpa using hs)
  · exact List.getD_eq_default _ _ (by simpa using Nat.le_of_not_lt hs)

/-- Under the three preconditions, `clear_points` reduces to the scan of
all window start positions over the all-`false` mask. -/
lemma clear_points_ok (junk : ℝ) (x cs : List ℝ) (th : List (List ℝ))
    (wl : ℕ) (hlen : x.length = cs.length) (h1 : 1 ≤ wl) (h2 : wl ≤ x.length)
    (h5 : th.length = 5) :
    clear_points junk x cs th (wl : ℤ) =
      .ok (scanWindows junk x cs th wl (List.range (x.length - wl + 1))
        (List.replicate x.length false)) := by
  have c1 : ¬(x.length ≠ cs.length) := by simp [hlen]
  have c2 : ¬((wl : ℤ) ≤ 0 ∨ (wl : ℤ) > (x.length : ℤ)) := by omega
  have c3 : ¬(th.length ≠ 5) := by simp [h5]
  rw [clear_points, if_neg c1, if_neg c2, if_neg c3, Int.toNat_natCast]

/-! ### C1: OR-aggregation over covering windows -/

/-- C1: for every valid input (equal-length measured and predicted series
of length `n`, exactly 5 threshold pairs, `1 ≤ window_len ≤ n`),
`clear_points` returns a boolean mask of length `n` in which sample `s`
is `true` if and only if at least one window start `p` with
`0 ≤ p ≤ n - window_len` and `p ≤ s < p + window_len` exists whose
criteria vector passes all 5 thresholds (logical-OR aggregation over all
windows covering `s`). -/
theorem clear_points_or_aggregation (junk : ℝ) (x cs : List ℝ)
    (th : List (List ℝ)) (wl : ℕ) (hlen : x.length = cs.length)
    (h1 : 1 ≤ wl) (h2 : wl ≤ x.length) (h5 : th.length = 5)
    (mask : List Bool) (hok : clear_points junk x cs th (wl : ℤ) = .ok mask) :
    mask.length = x.length ∧
      ∀ s, s < x.length →
        (mask.getD s false = true ↔
          ∃ p, p ≤ x.length - wl ∧ p ≤ s ∧ s < p + wl ∧
            clearAt junk x cs th wl p) := by
  rw [clear_points_ok junk x cs th wl hlen h1 h2 h5] at hok
  injection hok with hok
  subst hok
  refine ⟨by rw [scanWindows_length]; simp, fun s hs => ?_⟩
  rw [scanWindows_getD junk x cs th wl _ _ s (by simpa using hs),
    getD_replicate_false]
  constructor
  · rintro (hfalse | ⟨p, hp, hcl, hc1, hc2⟩)
    · exact absurd hfalse (by simp)
    · exact ⟨p, by have := List.mem_range.mp hp; omega, hc1, hc2, hcl⟩
  · rintro ⟨p, hple, hc1, hc2, hcl⟩
    exact Or.inr ⟨p, List.mem_range.mpr (by omega), hcl, hc1, hc2⟩

/-- Witness for C1 at `x = cs = [100, 100]`, tight thresholds and
`window_len = 2`. -/
theorem clear_points_or_aggregation_witness :
    (scanWindows 0 [(100:ℝ), 100] [100, 100] (List.replicate 5 [(-1:ℝ), 1]) 2
        (List.range 1) (List.replicate 2 false)).length = 2 ∧
      ∀ s, s < 2 →
        ((scanWindows 0 [(100:ℝ), 100] [100, 100]
            (List.replicate 5 [(-1:ℝ), 1]) 2
            (List.range 1) (List.replicate 2 false)).getD s false = true ↔
          ∃ p, p ≤ 0 ∧ p ≤ s ∧ s < p + 2 ∧
            clearAt 0 [100, 100] [100, 100] (List.replicate 5 [(-1:ℝ), 1]) 2 p) :=
  clear_points_or_aggregation 0 [100, 100] [100, 100]
    (List.replicate 5 [(-1:ℝ), 1]) 2 rfl (by norm_num) (by norm_num) (by simp)
    _ (clear_points_ok 0 [100, 100] [100, 100] (List.replicate 5 [(-1:ℝ), 1]) 2
        rfl (by norm_num) (by norm_num) (by simp))

/-! ### C3: the threshold check, positionally -/

lemma evaluate_criterion_iff (junk : ℝ) (crit : List ℝ) (th : List (List ℝ)) :
    evaluate_criterion junk crit th ↔
      ∀ i, (h1 : i < crit.length) → (h2 : i < th.length) →
        vminD junk (th[i]) ≤ crit[i] ∧ crit[i] ≤ vmaxD junk (th[i]) := by
  unfold evaluate_criterion
  constructor
  · intro h i h1 h2
    have hmem : (crit[i], th[i]) ∈ crit.zip th := by
      rw [List.mem_iff_getElem]
      refine ⟨i, by rw [List.length_zip]; exact lt_min h1 h2, ?_⟩
      rw [List.getElem_zip]
    have := h _ hmem
    push_neg at this
    exact this
  · intro h cb hmem
    rw [List.mem_iff_getElem] at hmem
    obtain ⟨i, hi, heq⟩ := hmem
    rw [List.getElem_zip] at heq
    subst heq
    rw [List.length_zip] at hi
    have h1 : i < crit.length := lt_of_lt_of_le hi (min_le_left _ _)
    have h2 : i < th.length := lt_of_lt_of_le hi (min_le_right _ _)
    have := h i h1 h2
    push_neg
    exact this

/-- C3: for every 5-element criteria vector and list of 5 bound vectors,
`evaluate_criterion` is `true` iff at each position `i` (compared
strictly by position) `min(bounds_i) ≤ criteria[i] ≤ max(bounds_i)`,
both bounds inclusive; consequently the result is unchanged when the
elements within any bounds vector are reordered. -/
theorem evaluate_criterion_bounds_iff (junk : ℝ) (crit : List ℝ)
    (th th' : List (List ℝ)) (hc : crit.length = 5) (hth : th.length = 5)
    (hth' : th'.length = 5)
    (hperm : ∀ i, i < 5 → (th'.getD i []).Perm (th.getD i [])) :
    (evaluate_criterion junk crit th ↔
      ∀ i, i < 5 →
        vminD junk (th.getD i []) ≤ crit.getD i 0 ∧
          crit.getD i 0 ≤ vmaxD junk (th.getD i [])) ∧
    (evaluate_criterion junk crit th ↔ evaluate_criterion junk crit th') := by
  have key : ∀ t : List (List ℝ), t.length = 5 →
      (evaluate_criterion junk crit t ↔
        ∀ i, i < 5 →
          vminD junk (t.getD i []) ≤ crit.getD i 0 ∧
            crit.getD i 0 ≤ vmaxD junk (t.getD i [])) := by
    intro t ht
    rw [evaluate_criterion_iff]
    constructor
    · intro h i hi
      have h1 : i < crit.length := hc ▸ hi
      have h2 : i < t.length := ht ▸ hi
      have := h i h1 h2
      rw [List.getD_eq_getElem crit 0 h1, List.getD_eq_getElem t [] h2]
      exact this
    · intro h i h1 h2
      have hi : i < 5 := hc ▸ h1
      have := h i hi
      rw [List.getD_eq_getElem crit 0 h1, List.getD_eq_getElem t [] h2] at this
      exact this
  refine ⟨key th hth, ?_⟩
  rw [key th hth, key th' hth']
  constructor <;> intro h i hi
  · rw [vminD_perm junk (hperm i hi), vmaxD_perm junk (hperm i hi)]
    exact h i hi
  · rw [← vminD_perm junk (hperm i hi), ← vmaxD_perm junk (hperm i hi)]
    exact h i hi

/-- Witness for C3: zero criteria against thresholds `[-1, 1]` and their
elementwise reorderings `[1, -1]`. -/
theorem evaluate_criterion_bounds_iff_witness :
    (evaluate_criterion 0 [(0:ℝ), 0, 0, 0, 0] (List.replicate 5 [(-1:ℝ), 1]) ↔
      ∀ i, i < 5 →
        vminD 0 ((List.replicate 5 [(-1:ℝ), 1]).getD i []) ≤
            ([(0:ℝ), 0, 0, 0, 0]).getD i 0 ∧
          ([(0:ℝ), 0, 0, 0, 0]).getD i 0 ≤
            vmaxD 0 ((List.replicate 5 [(-1:ℝ), 1]).getD i [])) ∧
    (evaluate_criterion 0 [(0:ℝ), 0, 0, 0, 0] (List.replicate 5 [(-1:ℝ), 1]) ↔
      evaluate_criterion 0 [(0:ℝ), 0, 0, 0, 0] (List.replicate 5 [(1:ℝ), -1])) :=
  evaluate_criterion_bounds_iff 0 [(0:ℝ), 0, 0, 0, 0]
    (List.replicate 5 [(-1:ℝ), 1]) (List.replicate 5 [(1:ℝ), -1])
    rfl (by simp) (by simp)
    (fun i hi => by
      rw [List.getD_eq_getElem _ _ (by simpa using hi),
        List.getD_eq_getElem _ _ (by simpa using hi)]
      simp only [List.getElem_replicate]
      exact List.Perm.swap (-1) 1 [])

/-! ### C4 and C10: precondition validation -/

/-- C4: `clear_points` fails, before any window is processed and with no
partial result, exactly when a precondition is violated:
`len(measured) ≠ len(predicted)` gives `LengthMismatch`,
`window_len ≤ 0` or `window_len > n` gives `InvalidWindowLength`, and
`len(thresholds) ≠ 5` gives `InvalidThresholdCount`; when all three
preconditions hold no error is raised. -/
theorem clear_points_precondition_errors (junk : ℝ) (x cs : List ℝ)
    (th : List (List ℝ)) (wl : ℤ) :
    (x.length ≠ cs.length →
      clear_points junk x cs th wl = .error .LengthMismatch) ∧
    (x.length = cs.length → (wl ≤ 0 ∨ (x.length : ℤ) < wl) →
      clear_points junk x cs th wl = .error .InvalidWindowLength) ∧
    (x.length = cs.length → 0 < wl → wl ≤ (x.length : ℤ) → th.length ≠ 5 →
      clear_points junk x cs th wl = .error .InvalidThresholdCount) ∧
    (x.length = cs.length → 0 < wl → wl ≤ (x.length : ℤ) → th.length = 5 →
      ∃ mask, clear_points junk x cs th wl = .ok mask) := by
  refine ⟨?_, ?_, ?_, ?_⟩
  · intro h
    rw [clear_points, if_pos h]
  · intro h hw
    rw [clear_points, if_neg (by simp [h]), if_pos (by omega)]
  · intro h hw1 hw2 h5
    rw [clear_points, if_neg (by simp [h]), if_neg (by omega), if_pos h5]
  · intro h hw1 hw2 h5
    exact ⟨_, by
      rw [clear_points, if_neg (by simp [h]), if_neg (by omega),
        if_neg (by simp [h5])]⟩

/-- Witness for C4: the three validation scenarios of the spec and one
fully valid call. -/
theorem clear_points_precondition_errors_witness :
    clear_points 0 [(1:ℝ), 2, 3] [1, 2] (List.replicate 5 [(-1:ℝ), 1]) 1 =
        .error .LengthMismatch ∧
    clear_points 0 [(1:ℝ), 2, 3] [1, 2, 3] (List.replicate 5 [(-1:ℝ), 1]) 5 =
        .error .InvalidWindowLength ∧
    clear_points 0 [(1:ℝ), 2, 3] [1, 2, 3] (List.replicate 4 [(-1:ℝ), 1]) 2 =
        .error .InvalidThresholdCount ∧
    ∃ mask, clear_points 0 [(1:ℝ), 2, 3] [1, 2, 3]
        (List.replicate 5 [(-1:ℝ), 1]) 2 = .ok mask :=
  ⟨(clear_points_precondition_errors 0 _ _ _ 1).1 (by simp),
   (clear_points_precondition_errors 0 _ _ _ 5).2.1 rfl
      (by right; simp),
   (clear_points_precondition_errors 0 _ _ _ 2).2.2.1 rfl (by norm_num)
      (by simp) (by simp),
   (clear_points_precondition_errors 0 _ _ _ 2).2.2.2 rfl (by norm_num)
      (by simp) (by simp)⟩

/-- C10: when several precondition violations hold simultaneously,
`clear_points` reports the one earliest in the fixed check order —
length mismatch is checked before window-length validity, which is
checked before threshold count. -/
theorem clear_points_error_priority (junk : ℝ) (x cs : List ℝ)
    (th : List (List ℝ)) (wl : ℤ) :
    (x.length ≠ cs.length →
      clear_points junk x cs th wl = .error .LengthMismatch) ∧
    (x.length = cs.length → (wl ≤ 0 ∨ (x.length : ℤ) < wl) → th.length ≠ 5 →
      clear_points junk x cs th wl = .error .InvalidWindowLength) := by
  refine ⟨?_, ?_⟩
  · intro h
    rw [clear_points, if_pos h]
  · intro h hw _
    rw [clear_points, if_neg (by simp [h]), if_pos (by omega)]

/-- Witness for C10: the two simultaneous-violation examples of the
claim (length mismatch wins over an invalid window length and over a
wrong threshold count), plus window length winning over threshold
count. -/
theorem clear_points_error_priority_witness :
    clear_points 0 [(1:ℝ), 2, 3] [1, 2] (List.replicate 4 [(-1:ℝ), 1]) 9 =
        .error .LengthMismatch ∧
    clear_points 0 [(1:ℝ), 2] [1, 2, 3] (List.replicate 4 [(-1:ℝ), 1]) 1 =
        .error .LengthMismatch ∧
    clear_points 0 [(1:ℝ), 2, 3] [1, 2, 3] (List.replicate 4 [(-1:ℝ), 1]) 9 =
        .error .InvalidWindowLength :=
  ⟨(clear_points_error_priority 0 _ _ _ 9).1 (by simp),
   (clear_points_error_priority 0 _ _ _ 1).1 (by simp),
   (clear_points_error_priority 0 _ _ _ 9).2 rfl
      (by right; simp) (by simp)⟩

/-! ### C5: the sigma guard -/

lemma svar_short {s : List ℝ} (h : s.length ≤ 1) : svar s = 0 := by
  match s with
  | [] => simp [svar]
  | [a] => simp [svar, mean]
  | a :: b :: t => simp at h

/-- C5: `sigma` is the sample standard deviation of the first
differences of the window divided by the window mean; whenever that
quotient is degenerate — the denominator `mean` is `0`, or there are
fewer than two differences so the sample variance itself divides by
zero (exactly the NaN/Inf cases of the C code, which the source guard
maps to `0.0`) — `sigma` yields `0` instead, and this value
participates normally in the criterion-4 difference.  As a total
function it never raises. -/
theorem sigma_guard (x : List ℝ) :
    sigma x = sd (diff x) / mean x ∧
    (mean x = 0 → sigma x = 0) ∧
    ((diff x).length ≤ 1 → sigma x = 0) ∧
    (∀ junk cs, (calculate_criterion junk x cs).getD 3 0 =
      sigma x - sigma cs) := by
  refine ⟨rfl, ?_, ?_, fun junk cs => rfl⟩
  · intro h
    rw [sigma, h, div_zero]
  · intro h
    rw [sigma, sd, svar_short h, Real.sqrt_zero, zero_div]

/-- Witness for C5 at the window `[1, -1]`, whose mean is exactly `0`. -/
theorem sigma_guard_witness :
    mean [(1:ℝ), -1] = 0 ∧ sigma [(1:ℝ), -1] = 0 :=
  ⟨by norm_num [mean], (sigma_guard [(1:ℝ), -1]).2.1 (by norm_num [mean])⟩

/-! ### C2: the criteria vector against the spec's formulas -/

lemma diff_length (x : List ℝ) : (diff x).length = x.length - 1 := by
  rw [diff, List.length_zipWith, List.length_tail]
  exact min_eq_right (Nat.sub_le _ _)

lemma getElem_diff (x : List ℝ) {i : ℕ} (hi : i < (diff x).length) :
    (diff x)[i] = x.getD (i + 1) 0 - x.getD i 0 := by
  have h1 : i + 1 < x.length := by have := diff_length x; omega
  simp only [diff, List.getElem_zipWith, List.getElem_tail]
  rw [List.getD_eq_getElem _ _ h1,
    List.getD_eq_getElem _ _ (by omega : i < x.length)]

lemma getD_diff (x : List ℝ) {i : ℕ} (h : i + 1 < x.length) :
    (diff x).getD i 0 = x.getD (i + 1) 0 - x.getD i 0 := by
  have hi : i < (diff x).length := by rw [diff_length]; omega
  rw [List.getD_eq_getElem _ _ hi, getElem_diff]

lemma sum_eq_sum_getD (l : List ℝ) :
    l.sum = ∑ i ∈ Finset.range l.length, l.getD i 0 := by
  induction l with
  | nil => simp
  | cons a t ih =>
    rw [List.sum_cons, List.length_cons, Finset.sum_range_succ']
    simp only [List.getD_cons_succ, List.getD_cons_zero]
    rw [ih]
    ring

lemma vmaxD_eq_sSup (junk : ℝ) {l : List ℝ} (h : l ≠ []) :
    vmaxD junk l = sSup {a | a ∈ l} := by
  obtain ⟨hm, hub⟩ := vmaxD_spec junk h
  exact le_antisymm (le_csSup (List.finite_toSet l).bddAbove hm)
    (csSup_le ⟨vmaxD junk l, hm⟩ hub)

/-- Formalised from the claim's words: the largest value of a window. -/
noncomputable def maxSpec (x : List ℝ) : ℝ := sSup {a | a ∈ x}

/-- Formalised from the claim's words:
`L(v) = Σ sqrt((v[i+1] − v[i])² + 1)` summed over the
`window_len − 1` consecutive pairs. -/
noncomputable def Lspec (x : List ℝ) : ℝ :=
  ∑ i ∈ Finset.range (x.length - 1),
    Real.sqrt ((x.getD (i + 1) 0 - x.getD i 0) ^ 2 + 1)

/-- Formalised from the claim's words: the largest value of
`|Δmeasured − Δpredicted|` over the consecutive pairs. -/
noncomputable def Sspec (x cs : List ℝ) : ℝ :=
  sSup {v | ∃ i, i + 1 < x.length ∧
    v = |(x.getD (i + 1) 0 - x.getD i 0) - (cs.getD (i + 1) 0 - cs.getD i 0)|}

lemma L_eq_Lspec (x : List ℝ) : L x = Lspec x := by
  rw [L, Lspec, sum_eq_sum_getD, List.length_map, diff_length]
  apply Finset.sum_congr rfl
  intro i hi
  rw [Finset.mem_range] at hi
  have h1 : i + 1 < x.length := by omega
  have hi' : i < (diff x).length := by rw [diff_length]; omega
  rw [List.getD_eq_getElem _ _ (by simpa using hi'), List.getElem_map,
    getElem_diff]

lemma mem_Slist_iff (x cs : List ℝ) (hlen : cs.length = x.length) (v : ℝ) :
    v ∈ List.zipWith (fun a b => |a - b|) (diff x) (diff cs) ↔
      ∃ i, i + 1 < x.length ∧
        v = |(x.getD (i + 1) 0 - x.getD i 0) -
              (cs.getD (i + 1) 0 - cs.getD i 0)| := by
  have hzlen :
      (List.zipWith (fun a b => |a - b|) (diff x) (diff cs)).length =
        x.length - 1 := by
    rw [List.length_zipWith, diff_length, diff_length, hlen]
    exact min_self _
  rw [List.mem_iff_getElem]
  constructor
  · rintro ⟨i, hi, rfl⟩
    have hix : i + 1 < x.length := by rw [hzlen] at hi; omega
    refine ⟨i, hix, ?_⟩
    rw [List.getElem_zipWith, getElem_diff, getElem_diff]
  · rintro ⟨i, hix, rfl⟩
    refine ⟨i, by rw [hzlen]; omega, ?_⟩
    rw [List.getElem_zipWith, getElem_diff, getElem_diff]

lemma S_eq_Sspec (junk : ℝ) {x cs : List ℝ} (hlen : cs.length = x.length)
    (h2 : 2 ≤ x.length) : S junk x cs = Sspec x cs := by
  have hne : List.zipWith (fun a b => |a - b|) (diff x) (diff cs) ≠ [] := by
    intro hnil
    have := congrArg List.length hnil
    rw [List.length_zipWith, diff_length, diff_length, hlen,
      min_self, List.length_nil] at this
    omega
  rw [S, vmaxD_eq_sSup junk hne, Sspec]
  congr 1
  ext v
  simp only [Set.mem_setOf_eq]
  exact mem_Slist_iff x cs hlen v

/-- C2: for every pair of equal-length windows of length
`window_len ≥ 2`, `calculate_criterion` returns exactly the 5-element
vector, in fixed positional order: (1) mean difference, (2) max
difference, (3) line-length difference with
`L(v) = Σ sqrt((v[i+1] − v[i])² + 1)` over the `window_len − 1`
consecutive pairs, (4) sigma difference, (5) the maximum over
consecutive pairs of `|Δmeasured − Δpredicted|`. -/
theorem calculate_criterion_fixed_order (junk : ℝ) (x cs : List ℝ)
    (wl : ℕ) (h2 : 2 ≤ wl) (hx : x.length = wl) (hcs : cs.length = wl) :
    calculate_criterion junk x cs =
      [mean x - mean cs, maxSpec x - maxSpec cs, Lspec x - Lspec cs,
       sigma x - sigma cs, Sspec x cs] := by
  have hxne : x ≠ [] := by
    intro h; rw [h, List.length_nil] at hx; omega
  have hcsne : cs ≠ [] := by
    intro h; rw [h, List.length_nil] at hcs; omega
  rw [calculate_criterion, vmaxD_eq_sSup junk hxne, vmaxD_eq_sSup junk hcsne,
    L_eq_Lspec, L_eq_Lspec,
    S_eq_Sspec junk (hcs.trans hx.symm) (by omega)]
  rfl

/-- Witness for C2 at the window pair `[100, 101]`, `[100, 100]` of
length 2. -/
theorem calculate_criterion_fixed_order_witness :
    calculate_criterion 0 [(100:ℝ), 101] [100, 100] =
      [mean [(100:ℝ), 101] - mean [(100:ℝ), 100],
       maxSpec [(100:ℝ), 101] - maxSpec [(100:ℝ), 100],
       Lspec [(100:ℝ), 101] - Lspec [(100:ℝ), 100],
       sigma [(100:ℝ), 101] - sigma [(100:ℝ), 100],
       Sspec [(100:ℝ), 101] [(100:ℝ), 100]] :=
  calculate_criterion_fixed_order 0 [100, 101] [100, 100] 2
    (by norm_num) rfl rfl

/-! ### C6 and C9: identity windows, and windows of length 1 -/

lemma window_length {x : List ℝ} {p wl : ℕ} (hp : p + wl ≤ x.length) :
    (window x p wl).length = wl := by
  rw [window, List.length_take, List.length_drop]
  omega

lemma S_self (junk : ℝ) {w : List ℝ} (h2 : 2 ≤ w.length) :
    S junk w w = 0 := by
  rw [S]
  have hlen :
      (List.zipWith (fun a b => |a - b|) (diff w) (diff w)).length =
        w.length - 1 := by
    rw [List.length_zipWith, diff_length, min_self]
  apply vmaxD_eq junk
  · rw [List.mem_iff_getElem]
    refine ⟨0, by rw [hlen]; omega, ?_⟩
    rw [List.getElem_zipWith]
    simp
  · intro b hb
    rw [List.mem_iff_getElem] at hb
    obtain ⟨i, hi, rfl⟩ := hb
    rw [List.getElem_zipWith]
    simp

lemma calculate_criterion_self (junk : ℝ) {w : List ℝ} (h2 : 2 ≤ w.length) :
    calculate_criterion junk w w = [0, 0, 0, 0, 0] := by
  rw [calculate_criterion, S_self junk h2]
  simp

/-- Counterexample for C6 as stated: `measured = predicted = [5]` with
`window_len = 1` is a valid input on which every window is an identity
window, yet the fifth criterion of the (only) window is the maximum of
an empty vector of slope deviations — the unspecified out-of-bounds
value of the source, instantiated here to `1` — and not `0`. -/
theorem identity_case_window_one_cex :
    (calculate_criterion 1 [(5:ℝ)] [(5:ℝ)]).getD 4 0 ≠ 0 := by
  have hS : S 1 [(5:ℝ)] [(5:ℝ)] = 1 := rfl
  simp [calculate_criterion, hS]

/-- C6 (amended: the all-criteria-zero part holds for windows with at
least one consecutive pair, `window_len ≥ 2`; at `window_len = 1` the
fifth criterion is the unspecified empty-maximum): for every valid
input with `measured = predicted` and `2 ≤ window_len`, all 5 criteria
are `0` for every window, and if every threshold range includes `0` the
returned mask is `true` at every index. -/
theorem identity_case_mask_all_true (junk : ℝ) (x cs : List ℝ)
    (th : List (List ℝ)) (wl : ℕ) (heq : x = cs) (h2 : 2 ≤ wl)
    (hwl : wl ≤ x.length) (h5 : th.length = 5)
    (hzero : ∀ i, i < 5 → vminD junk (th.getD i []) ≤ 0 ∧
      0 ≤ vmaxD junk (th.getD i [])) (mask : List Bool)
    (hok : clear_points junk x cs th (wl : ℤ) = .ok mask) :
    (∀ p, p + wl ≤ x.length →
      calculate_criterion junk (window x p wl) (window cs p wl) =
        [0, 0, 0, 0, 0]) ∧
    ∀ s, s < x.length → mask.getD s false = true := by
  subst heq
  have hcrit : ∀ p, p + wl ≤ x.length →
      calculate_criterion junk (window x p wl) (window x p wl) =
        [0, 0, 0, 0, 0] := by
    intro p hp
    exact calculate_criterion_self junk (by rw [window_length hp]; omega)
  refine ⟨hcrit, ?_⟩
  intro s hs
  obtain ⟨hlen, hiff⟩ := clear_points_or_aggregation junk x x th wl rfl
    (by omega) hwl h5 mask hok
  rw [hiff s hs]
  refine ⟨min s (x.length - wl), min_le_right _ _, min_le_left _ _,
    by omega, ?_⟩
  rw [clearAt, hcrit _ (by omega), evaluate_criterion_iff]
  intro i h1 hth
  have hi5 : i < 5 := by simpa using h1
  have hz := hzero i hi5
  rw [List.getD_eq_getElem th [] hth] at hz
  have h0 : ([(0:ℝ), 0, 0, 0, 0] : List ℝ)[i] = 0 := by
    interval_cases i <;> rfl
  rw [h0]
  exact hz

/-- Witness for C6 (amended) at the spec's concrete scenario:
`measured = predicted = [100, 100, 100, 100]`, `window_len = 2`,
thresholds all `[-1, 1]`. -/
theorem identity_case_mask_all_true_witness :
    (∀ p, p + 2 ≤ 4 →
      calculate_criterion 0 (window [(100:ℝ), 100, 100, 100] p 2)
          (window [(100:ℝ), 100, 100, 100] p 2) = [0, 0, 0, 0, 0]) ∧
    ∀ s, s < 4 →
      (scanWindows 0 [(100:ℝ), 100, 100, 100] [(100:ℝ), 100, 100, 100]
        (List.replicate 5 [(-1:ℝ), 1]) 2 (List.range 3)
        (List.replicate 4 false)).getD s false = true :=
  identity_case_mask_all_true 0 [100, 100, 100, 100] [100, 100, 100, 100]
    (List.replicate 5 [(-1:ℝ), 1]) 2 rfl (by norm_num) (by norm_num)
    (by simp)
    (fun i hi => by
      rw [List.getD_eq_getElem _ _ (by simpa using hi),
        List.getElem_replicate]
      constructor
      · show vminD 0 [(-1:ℝ), 1] ≤ 0
        rw [show vminD 0 [(-1:ℝ), 1] = min (-1) 1 from rfl,
          min_eq_left (by norm_num : (-1:ℝ) ≤ 1)]
        norm_num
      · show (0:ℝ) ≤ vmaxD 0 [(-1:ℝ), 1]
        rw [show vmaxD 0 [(-1:ℝ), 1] = max (-1) 1 from rfl,
          max_eq_right (by norm_num : (-1:ℝ) ≤ 1)]
        norm_num)
    _ (clear_points_ok 0 [100, 100, 100, 100] [100, 100, 100, 100]
        (List.replicate 5 [(-1:ℝ), 1]) 2 rfl (by norm_num) (by norm_num)
        (by simp))

/-- Counterexample for C9 as stated: at the length-1 window pair
`[7]`, `[3]` (zero consecutive pairs) the fifth criterion — position 5,
the max slope deviation — is the maximum of an empty vector, i.e. the
unspecified out-of-bounds value of the source (instantiated here to
`2`), not `0`. -/
theorem window_one_fifth_criterion_cex :
    (calculate_criterion 2 [(7:ℝ)] [(3:ℝ)]).getD 4 0 ≠ 0 := by
  have hS : S 2 [(7:ℝ)] [(3:ℝ)] = 2 := rfl
  simp [calculate_criterion, hS]

/-- C9 (amended): for windows of length 1 (zero consecutive pairs) the
line-length and sigma criteria — positions 3 and 4 of the criteria
vector — evaluate to `0`, but the max-slope-deviation criterion
(position 5) equals the unspecified result `junk` of taking the
maximum of an empty vector (an out-of-bounds read in the source), so
the criteria computation is not well-defined at `window_len = 1`. -/
theorem window_one_criteria (junk a b : ℝ) :
    (calculate_criterion junk [a] [b]).getD 2 0 = 0 ∧
    (calculate_criterion junk [a] [b]).getD 3 0 = 0 ∧
    (calculate_criterion junk [a] [b]).getD 4 0 = junk := by
  have hsig : ∀ c : ℝ, sigma [c] = 0 := fun c => by
    rw [sigma, sd, svar_short (by simp [diff]), Real.sqrt_zero, zero_div]
  refine ⟨?_, ?_, ?_⟩
  · simp [calculate_criterion, L, diff]
  · simp [calculate_criterion, hsig]
  · simp [calculate_criterion, S, diff, vmaxD]

/-! ### C7: widening thresholds is monotone -/

/-- C7: for every valid input and threshold sets `T`, `T'` such that at
each position the effective range of `T'` contains that of `T`
(smaller effective minimum, larger effective maximum), every index
`true` in the mask for `T` is also `true` in the mask for `T'`. -/
theorem clear_points_threshold_monotone (junk : ℝ) (x cs : List ℝ)
    (T T' : List (List ℝ)) (wl : ℕ) (hlen : x.length = cs.length)
    (h1 : 1 ≤ wl) (h2 : wl ≤ x.length) (hT : T.length = 5)
    (hT' : T'.length = 5)
    (hwide : ∀ i, i < 5 →
      vminD junk (T'.getD i []) ≤ vminD junk (T.getD i []) ∧
        vmaxD junk (T.getD i []) ≤ vmaxD junk (T'.getD i []))
    (mask mask' : List Bool)
    (hok : clear_points junk x cs T (wl : ℤ) = .ok mask)
    (hok' : clear_points junk x cs T' (wl : ℤ) = .ok mask') :
    ∀ s, s < x.length →
      mask.getD s false = true → mask'.getD s false = true := by
  obtain ⟨_, hiff⟩ :=
    clear_points_or_aggregation junk x cs T wl hlen h1 h2 hT mask hok
  obtain ⟨_, hiff'⟩ :=
    clear_points_or_aggregation junk x cs T' wl hlen h1 h2 hT' mask' hok'
  intro s hs htrue
  rw [hiff s hs] at htrue
  rw [hiff' s hs]
  obtain ⟨p, hp1, hp2, hp3, hcl⟩ := htrue
  refine ⟨p, hp1, hp2, hp3, ?_⟩
  rw [clearAt, evaluate_criterion_iff] at hcl ⊢
  intro i hi1 hi2
  have hi5 : i < 5 := by rw [hT'] at hi2; exact hi2
  have hiT : i < T.length := by omega
  have hc := hcl i hi1 hiT
  have hw := hwide i hi5
  rw [List.getD_eq_getElem T [] hiT, List.getD_eq_getElem T' [] hi2] at hw
  exact ⟨le_trans hw.1 hc.1, le_trans hc.2 hw.2⟩

/-- The five zero criteria pass the tight thresholds `[-1, 1]`. -/
lemma evaluate_zero_tight :
    evaluate_criterion 0 [(0:ℝ), 0, 0, 0, 0] (List.replicate 5 [(-1:ℝ), 1]) := by
  rw [evaluate_criterion_iff]
  intro i h1 h2
  have hi5 : i < 5 := by simpa using h1
  have h0 : ([(0:ℝ), 0, 0, 0, 0] : List ℝ)[i] = 0 := by
    interval_cases i <;> rfl
  rw [h0, List.getElem_replicate]
  constructor
  · rw [show vminD 0 [(-1:ℝ), 1] = min (-1) 1 from rfl,
      min_eq_left (by norm_num : (-1:ℝ) ≤ 1)]
    norm_num
  · rw [show vmaxD 0 [(-1:ℝ), 1] = max (-1) 1 from rfl,
      max_eq_right (by norm_num : (-1:ℝ) ≤ 1)]
    norm_num

/-- Index 0 of the scan of `[100, 100]` against itself under the tight
thresholds is marked clear. -/
lemma scan_tight_getD_zero :
    (scanWindows 0 [(100:ℝ), 100] [100, 100] (List.replicate 5 [(-1:ℝ), 1])
      2 (List.range 1) (List.replicate 2 false)).getD 0 false = true := by
  rw [scanWindows_getD 0 [(100:ℝ), 100] [100, 100] _ 2 _ _ 0 (by simp)]
  refine Or.inr ⟨0, by simp, ?_, by norm_num, by norm_num⟩
  rw [clearAt,
    show window [(100:ℝ), 100] 0 2 = [100, 100] from rfl,
    calculate_criterion_self 0 (by norm_num)]
  exact evaluate_zero_tight

/-- Witness for C7: identical series `[100, 100]`, thresholds `[-1, 1]`
widened to `[-2, 2]`, `window_len = 2`, at sample index `0`. -/
theorem clear_points_threshold_monotone_witness :
    (scanWindows 0 [(100:ℝ), 100] [100, 100]
      (List.replicate 5 [(-2:ℝ), 2]) 2 (List.range 1)
      (List.replicate 2 false)).getD 0 false = true :=
  clear_points_threshold_monotone 0 [100, 100] [100, 100]
    (List.replicate 5 [(-1:ℝ), 1]) (List.replicate 5 [(-2:ℝ), 2]) 2
    rfl (by norm_num) (by norm_num) (by simp) (by simp)
    (fun i hi => by
      rw [List.getD_eq_getElem _ _ (by simpa using hi),
        List.getD_eq_getElem _ _ (by simpa using hi),
        List.getElem_replicate, List.getElem_replicate]
      constructor
      · rw [show vminD 0 [(-2:ℝ), 2] = min (-2) 2 from rfl,
          show vminD 0 [(-1:ℝ), 1] = min (-1) 1 from rfl,
          min_eq_left (by norm_num : (-2:ℝ) ≤ 2),
          min_eq_left (by norm_num : (-1:ℝ) ≤ 1)]
        norm_num
      · rw [show vmaxD 0 [(-2:ℝ), 2] = max (-2) 2 from rfl,
          show vmaxD 0 [(-1:ℝ), 1] = max (-1) 1 from rfl,
          max_eq_right (by norm_num : (-2:ℝ) ≤ 2),
          max_eq_right (by norm_num : (-1:ℝ) ≤ 1)]
        norm_num)
    _ _
    (clear_points_ok 0 [100, 100] [100, 100] (List.replicate 5 [(-1:ℝ), 1])
      2 rfl (by norm_num) (by norm_num) (by simp))
    (clear_points_ok 0 [100, 100] [100, 100] (List.replicate 5 [(-2:ℝ), 2])
      2 rfl (by norm_num) (by norm_num) (by simp))
    0 (by norm_num) scan_tight_getD_zero

/-! ### C8: order-independence of the scan -/

/-- C8: processing the window start positions in any permutation of
`0 .. n − window_len` produces exactly the mask of the sequential
left-to-right scan performed by `clear_points`; moreover splitting the
positions into two parts and merging the two partial masks by
elementwise OR also reproduces that mask. -/
theorem scan_order_independence (junk : ℝ) (x cs : List ℝ)
    (th : List (List ℝ)) (wl : ℕ) (hlen : x.length = cs.length)
    (h1 : 1 ≤ wl) (h2 : wl ≤ x.length) (h5 : th.length = 5)
    (mask : List Bool) (hok : clear_points junk x cs th (wl : ℤ) = .ok mask)
    (ps : List ℕ) (hperm : ps.Perm (List.range (x.length - wl + 1))) :
    scanWindows junk x cs th wl ps (List.replicate x.length false) = mask ∧
    ∀ ps₁ ps₂, ps = ps₁ ++ ps₂ →
      List.zipWith (· || ·)
        (scanWindows junk x cs th wl ps₁ (List.replicate x.length false))
        (scanWindows junk x cs th wl ps₂ (List.replicate x.length false)) =
      mask := by
  rw [clear_points_ok junk x cs th wl hlen h1 h2 h5] at hok
  injection hok with hok
  subst hok
  constructor
  · apply List.ext_getElem
    · rw [scanWindows_length, scanWindows_length]
    · intro n hn1 hn2
      have hs : n < (List.replicate x.length false).length := by
        rw [scanWindows_length] at hn1
        exact hn1
      rw [← List.getD_eq_getElem _ false hn1, ← List.getD_eq_getElem _ false hn2,
        ← Bool.coe_iff_coe, scanWindows_getD junk x cs th wl ps _ n hs,
        scanWindows_getD junk x cs th wl _ _ n hs]
      simp only [hperm.mem_iff]
  · intro ps₁ ps₂ hsplit
    subst hsplit
    apply List.ext_getElem
    · rw [List.length_zipWith, scanWindows_length, scanWindows_length,
        scanWindows_length, List.length_replicate, min_self]
    · intro n hn1 hn2
      have hs : n < (List.replicate x.length false).length := by
        rw [List.length_zipWith, scanWindows_length, scanWindows_length,
          min_self] at hn1
        exact hn1
      rw [List.getElem_zipWith,
        ← List.getD_eq_getElem _ false (by rw [scanWindows_length]; exact hs),
        ← List.getD_eq_getElem _ false (by rw [scanWindows_length]; exact hs),
        ← List.getD_eq_getElem _ false hn2, ← Bool.coe_iff_coe,
        Bool.or_eq_true, scanWindows_getD junk x cs th wl ps₁ _ n hs,
        scanWindows_getD junk x cs th wl ps₂ _ n hs,
        scanWindows_getD junk x cs th wl _ _ n hs,
        getD_replicate_false]
      simp only [Bool.false_eq_true, false_or]
      constructor
      · rintro (⟨p, hp, hcl⟩ | ⟨p, hp, hcl⟩)
        · exact ⟨p, hperm.mem_iff.mp (List.mem_append_left ps₂ hp), hcl⟩
        · exact ⟨p, hperm.mem_iff.mp (List.mem_append_right ps₁ hp), hcl⟩
      · rintro ⟨p, hp, hcl⟩
        rcases List.mem_append.mp (hperm.mem_iff.mpr hp) with hp1 | hp2
        · exact Or.inl ⟨p, hp1, hcl⟩
        · exact Or.inr ⟨p, hp2, hcl⟩

/-- Witness for C8: the reversed position order on a length-3 series
with `window_len = 2`. -/
theorem scan_order_independence_witness :
    scanWindows 0 [(100:ℝ), 100, 100] [100, 100, 100]
        (List.replicate 5 [(-1:ℝ), 1]) 2 [1, 0] (List.replicate 3 false) =
      scanWindows 0 [(100:ℝ), 100, 100] [100, 100, 100]
        (List.replicate 5 [(-1:ℝ), 1]) 2 (List.range 2)
        (List.replicate 3 false) :=
  (scan_order_independence 0 [100, 100, 100] [100, 100, 100]
    (List.replicate 5 [(-1:ℝ), 1]) 2 rfl (by norm_num) (by norm_num)
    (by simp) _
    (clear_points_ok 0 [100, 100, 100] [100, 100, 100]
      (List.replicate 5 [(-1:ℝ), 1]) 2 rfl (by norm_num) (by norm_num)
      (by simp))
    [1, 0] (by decide)).1

end Clearskies
